import Mathlib

/-!
# Verification of the FlexRadio waveform SDK core

A shallow embedding, in Lean 4, of the data structures and operations of the
waveform SDK (`vita.c`, `radio.c`, `meters.c`, `utils.c`), together with
theorems settling the testable properties stated in the SDK's specification.

Conventions of the embedding:

* machine integers are `Nat`/`Int` with explicit `% 2^w` where overflow or
  truncation matters;
* byte sequences on the wire are `List Nat` with every element `< 256`;
* fallible operations return `Option`;
* `float`/`double` values are modelled by an idealized IEEE-754 value type
  (`CFloat`): an exact rational for finite values plus `+Inf`, `-Inf`, `NaN`.
  All multiplications performed by the code are by powers of two, which are
  exact in binary floating point, so the rational model is faithful on the
  ranges the code admits.
-/

namespace WaveformSdk

/-! ## Bytes and 32-bit words

`vita_read_cb` receives a datagram into a packed C struct and byte-swaps
selected fields with `ntohs`/`ntohl`/`be64toh`; the senders build fields with
`htons`/`htonl`/`htobe64`.  On the wire every multi-byte integer field is
big-endian, so the embedding works with big-endian byte serialization of
32-bit words. -/

/-- Big-endian serialization of a 32-bit word (`htonl` + memory layout). -/
def word32ToBytes (w : Nat) : List Nat :=
  [w / 2 ^ 24 % 256, w / 2 ^ 16 % 256, w / 2 ^ 8 % 256, w % 256]

/-- Read the byte at offset `i` of a received buffer.  Offsets beyond the
received data read 0: the work-queue descriptor holding the delivered packet
is `calloc`ed and only `bytes_received` bytes are `memcpy`ed into it. -/
def readByte (bs : List Nat) (i : Nat) : Nat := bs.getD i 0

/-- Read the 32-bit big-endian word at word offset `i` (`ntohl` of the struct
word), as `vita_read_cb` and the packet accessors do. -/
def readWord (bs : List Nat) (i : Nat) : Nat :=
  readByte bs (4 * i) * 2 ^ 24 + readByte bs (4 * i + 1) * 2 ^ 16 +
    readByte bs (4 * i + 2) * 2 ^ 8 + readByte bs (4 * i + 3)

/-! ## The VITA-49 packet model (`vita.h`)

`struct waveform_vita_packet` is a packed struct of endian-conditional
bitfields.  The abstract packet records each header bitfield as a bounded
`Nat`/`Bool`; the wire layout of word 0 is

```
bit 31..28 : packet_type          bit 23..22 : integer_timestamp_type
bit 27     : class_present        bit 21..20 : fractional_timestamp_type
bit 26     : trailer_present      bit 19..16 : sequence
bit 25..24 : reserved             bit 15..0  : length (32-bit words)
```

and word 3 is `information_class (hi 16) | packet_class (lo 16)`. -/

/-- The `packet_class` bitfield of `struct waveform_vita_packet`.  Within the
big-endian 16-bit class halfword: `is_audio` is bit 8, `is_float` bit 9,
padding bits 10..15, `sample_rate` bits 0..4, `bits_per_sample` bits 5..6,
`frames_per_sample` bit 7. -/
structure PacketClass where
  is_audio : Bool
  is_float : Bool
  padding : Nat
  sample_rate : Nat
  bits_per_sample : Nat
  frames_per_sample : Nat
deriving DecidableEq, Repr

/-- Pack a `PacketClass` into the big-endian 16-bit halfword of header word 3. -/
def PacketClass.toBits (c : PacketClass) : Nat :=
  (cond c.is_audio 1 0) * 2 ^ 8 + (cond c.is_float 1 0) * 2 ^ 9 +
    c.padding % 64 * 2 ^ 10 +
    c.sample_rate % 32 + c.bits_per_sample % 4 * 2 ^ 5 +
    c.frames_per_sample % 2 * 2 ^ 7

/-- Decode the big-endian 16-bit class halfword into its bitfields. -/
def PacketClass.ofBits (v : Nat) : PacketClass where
  is_audio := v / 2 ^ 8 % 2 = 1
  is_float := v / 2 ^ 9 % 2 = 1
  padding := v / 2 ^ 10 % 64
  sample_rate := v % 32
  bits_per_sample := v / 2 ^ 5 % 4
  frames_per_sample := v / 2 ^ 7 % 2

/-- The header of a VITA packet, all fields in host order. `ts` is present
exactly when the integer timestamp type is not `INTEGER_TIMESTAMP_NOT_PRESENT`
(the with-timestamp struct shape); it carries the 32-bit integer timestamp and
the 64-bit fractional timestamp. -/
structure VitaHeader where
  packet_type : Nat
  class_present : Bool
  trailer_present : Bool
  reserved : Nat
  integer_timestamp_type : Nat
  fractional_timestamp_type : Nat
  sequence : Nat
  stream_id : Nat
  oui : Nat
  information_class : Nat
  packet_class : PacketClass
  ts : Option (Nat × Nat)
deriving DecidableEq, Repr

/-- The payload union of `struct waveform_vita_packet`: audio and unknown
packets treat it as 32-bit words (`word_payload`), byte packets as a 32-bit
length followed by raw bytes (`byte_payload`). -/
inductive VitaPayload where
  | words (ws : List Nat)
  | bytes (len : Nat) (data : List Nat)
deriving DecidableEq, Repr

structure VitaPacket where
  header : VitaHeader
  payload : VitaPayload
deriving DecidableEq, Repr

/-- `VITA_PACKET_TYPE_IF_DATA_WITH_STREAM_ID` -/
def VITA_PACKET_TYPE_IF_DATA_WITH_STREAM_ID : Nat := 0x01
/-- `VITA_PACKET_TYPE_EXT_DATA_WITH_STREAM_ID` -/
def VITA_PACKET_TYPE_EXT_DATA_WITH_STREAM_ID : Nat := 0x03
/-- `FLEX_OUI` -/
def FLEX_OUI : Nat := 0x00001c2d
/-- `SMOOTHLAKE_INFORMATION_CLASS` -/
def SMOOTHLAKE_INFORMATION_CLASS : Nat := 0x534c
/-- `METER_STREAM_ID` -/
def METER_STREAM_ID : Nat := 0x88000000
/-- `SR_3K` / `SR_24K` sample-rate codes -/
def SR_3K : Nat := 0x00
def SR_24K : Nat := 0x03
/-- `BPS_8` / `BPS_32` bits-per-sample codes -/
def BPS_8 : Nat := 0x00
def BPS_32 : Nat := 0x03
/-- `FPS_1` / `FPS_2` frames-per-sample codes -/
def FPS_1 : Nat := 0x00
def FPS_2 : Nat := 0x01

/-- Number of 32-bit header words: `VITA_PACKET_HEADER_SIZE(packet) / 4`.
The macro selects the 28-byte with-timestamp header iff
`integer_timestamp_type != INTEGER_TIMESTAMP_NOT_PRESENT`, else the 16-byte
header of `struct waveform_vita_packet_sans_ts`. -/
def VitaHeader.headerWords (h : VitaHeader) : Nat :=
  if h.integer_timestamp_type ≠ 0 then 7 else 4

/-- Number of 32-bit payload words the packet occupies on the wire:
`word_payload` words for word packets, the `u32` length prefix plus the data
rounded up to whole words (`DIV_ROUND_UP`) for byte packets. -/
def VitaPayload.payloadWords : VitaPayload → Nat
  | .words ws => ws.length
  | .bytes _ data => 1 + (data.length + 3) / 4

/-- Header word 0 of the wire packet, given the final total length in words
(computed by `vita_send_packet` as payload words + header words). -/
def VitaHeader.word0 (h : VitaHeader) (totalLen : Nat) : Nat :=
  h.packet_type % 16 * 2 ^ 28 + (cond h.class_present 1 0) * 2 ^ 27 +
    (cond h.trailer_present 1 0) * 2 ^ 26 + h.reserved % 4 * 2 ^ 24 +
    h.integer_timestamp_type % 4 * 2 ^ 22 +
    h.fractional_timestamp_type % 4 * 2 ^ 20 +
    h.sequence % 16 * 2 ^ 16 + totalLen % 2 ^ 16

/-- The header words of the wire packet: word 0, stream id, OUI, class word,
then — for the with-timestamp shape only — the integer timestamp and the two
big-endian halves of the fractional timestamp. -/
def VitaHeader.toWords (h : VitaHeader) (totalLen : Nat) : List Nat :=
  [h.word0 totalLen, h.stream_id % 2 ^ 32, h.oui % 2 ^ 32,
   h.information_class % 2 ^ 16 * 2 ^ 16 + h.packet_class.toBits] ++
    match h.ts with
    | some (tsi, tsf) => [tsi % 2 ^ 32, tsf / 2 ^ 32 % 2 ^ 32, tsf % 2 ^ 32]
    | none => []

/-- The payload region of the wire packet.  Word packets serialize each
32-bit word big-endian (`htonl` per word, as `vita_send_data_packet` does for
audio samples); byte packets serialize the big-endian length prefix
(`htonl(data_size)`) followed by the raw data bytes, zero-padded to the whole
words counted by the header length (the `data` array of the packed struct is
zero-initialized). -/
def VitaPayload.toBytes : VitaPayload → List Nat
  | .words ws => ws.flatMap word32ToBytes
  | .bytes len data =>
      word32ToBytes len ++ data ++
        List.replicate ((data.length + 3) / 4 * 4 - data.length) 0

/-- `vita_send_packet`: the byte sequence transmitted for a packet.  The
function adds the header words to the caller-supplied payload length, writes
the sum into the length field with `htons`, and transmits `length * 4` bytes
of the struct: the header fields (placed in network order by the senders)
followed by the payload region. -/
def encodePacket (p : VitaPacket) : List Nat :=
  (p.header.toWords (p.payload.payloadWords + p.header.headerWords)).flatMap
      word32ToBytes ++
    p.payload.toBytes

/-! ## The receive path (`vita_read_cb`) -/

/-- The stream-id learning state of `struct vita` (zeroed by `vita_init` /
`calloc`). -/
structure VitaStreamState where
  tx_stream_in_id : Nat
  rx_stream_in_id : Nat
deriving DecidableEq, Repr

/-- Fresh stream state: both learned ids are zero. -/
def VitaStreamState.init : VitaStreamState := ⟨0, 0⟩

/-- The callback list a received packet is dispatched to. -/
inductive CbDest where
  | txData
  | rxData
  | txByteData
  | rxByteData
  | unknownData
deriving DecidableEq, Repr

/-- A packet delivery: the destination callback list, the packet as the data
callbacks observe it, and the stream state after learning. -/
structure Delivery where
  dest : CbDest
  packet : VitaPacket
  state : VitaStreamState
deriving DecidableEq, Repr

/-- The audio-packet classification of `vita_read_cb`: IF data with stream id,
audio, 32 bits per sample, 24 ksps, two frames per sample, float. -/
def isAudioHeader (h : VitaHeader) : Prop :=
  h.packet_type = VITA_PACKET_TYPE_IF_DATA_WITH_STREAM_ID ∧
    h.packet_class.is_audio = true ∧
    h.packet_class.bits_per_sample = BPS_32 ∧
    h.packet_class.sample_rate = SR_24K ∧
    h.packet_class.frames_per_sample = FPS_2 ∧
    h.packet_class.is_float = true

instance (h : VitaHeader) : Decidable (isAudioHeader h) := by
  unfold isAudioHeader; infer_instance

/-- The byte-packet classification of `vita_read_cb`: extension data with
stream id, audio, 8 bits per sample, 3 ksps, one frame per sample, not float. -/
def isByteHeader (h : VitaHeader) : Prop :=
  h.packet_type = VITA_PACKET_TYPE_EXT_DATA_WITH_STREAM_ID ∧
    h.packet_class.is_audio = true ∧
    h.packet_class.bits_per_sample = BPS_8 ∧
    h.packet_class.sample_rate = SR_3K ∧
    h.packet_class.frames_per_sample = FPS_1 ∧
    h.packet_class.is_float = false

instance (h : VitaHeader) : Decidable (isByteHeader h) := by
  unfold isByteHeader; infer_instance

/-- `is_transmit_packet`: the low bit of the (host-order) stream id. -/
def isTransmitStreamId (sid : Nat) : Bool := sid % 2 = 1

/-- The header fields `vita_read_cb` materializes from a received buffer,
after its `ntohs`/`ntohl`/`be64toh` swaps of the length, stream id and (when
the integer timestamp type is present) timestamp fields. -/
def decodeHeader (bs : List Nat) : VitaHeader :=
  let w0 := readWord bs 0
  let tsiType := w0 / 2 ^ 22 % 4
  { packet_type := w0 / 2 ^ 28
    class_present := w0 / 2 ^ 27 % 2 = 1
    trailer_present := w0 / 2 ^ 26 % 2 = 1
    reserved := w0 / 2 ^ 24 % 4
    integer_timestamp_type := tsiType
    fractional_timestamp_type := w0 / 2 ^ 20 % 4
    sequence := w0 / 2 ^ 16 % 16
    stream_id := readWord bs 1
    oui := readWord bs 2
    information_class := readWord bs 3 / 2 ^ 16
    packet_class := PacketClass.ofBits (readWord bs 3 % 2 ^ 16)
    ts := if tsiType ≠ 0 then some (readWord bs 4, readWord bs 5 * 2 ^ 32 + readWord bs 6)
          else none }

/-- The declared length of the received buffer, in 32-bit words (the
`ntohs`ed length field of header word 0). -/
def declaredLength (bs : List Nat) : Nat := readWord bs 0 % 2 ^ 16

/-- The word payload `vita_swap_payload` leaves in the delivered packet:
`length - header_words` words read (and `ntohl`ed) from `word_payload`, which
sits at byte offset 28 of the struct regardless of the header shape. -/
def deliveredWordPayload (bs : List Nat) (h : VitaHeader) : List Nat :=
  (List.range (declaredLength bs - h.headerWords)).map fun i => readWord bs (7 + i)

/-- The byte payload of a delivered byte packet: the `ntohl`ed length prefix
at byte offset 28 and the data bytes following it, read through the
`calloc`ed work-queue copy. -/
def deliveredBytePayload (bs : List Nat) : VitaPayload :=
  let len := readWord bs 7
  .bytes len ((List.range len).map fun i => readByte bs (32 + i))

/-- `vita_read_cb`, as a function of the received datagram and the stream
state: `none` when the packet is dropped (the function returns after only
logging), `some` delivery when a work item would be enqueued for the
callbacks of the returned destination list.  `recv` truncates the datagram to
`sizeof(struct waveform_vita_packet)` = 1468 bytes.  The validations, in the
order performed: OUI against `FLEX_OUI`, declared length (in bytes) against
the byte count received, information class against
`SMOOTHLAKE_INFORMATION_CLASS`, and — for audio packets — the learned
stream-id check. -/
def vitaReadCb (st : VitaStreamState) (bs0 : List Nat) : Option Delivery :=
  let bs := bs0.take 1468
  let h := decodeHeader bs
  if h.oui ≠ FLEX_OUI then none
  else if declaredLength bs * 4 ≠ bs.length then none
  else if h.information_class ≠ SMOOTHLAKE_INFORMATION_CLASS then none
  else if isAudioHeader h then
    let p : VitaPacket := ⟨h, .words (deliveredWordPayload bs h)⟩
    if isTransmitStreamId h.stream_id then
      if st.tx_stream_in_id = 0 then
        some ⟨.txData, p, { st with tx_stream_in_id := h.stream_id }⟩
      else if st.tx_stream_in_id ≠ h.stream_id then none
      else some ⟨.txData, p, st⟩
    else
      if st.rx_stream_in_id = 0 then
        some ⟨.rxData, p, { st with rx_stream_in_id := h.stream_id }⟩
      else if st.rx_stream_in_id ≠ h.stream_id then none
      else some ⟨.rxData, p, st⟩
  else if isByteHeader h then
    let p : VitaPacket := ⟨h, deliveredBytePayload bs⟩
    some ⟨cond (isTransmitStreamId h.stream_id) .txByteData .rxByteData, p, st⟩
  else
    some ⟨.unknownData, ⟨h, .words (deliveredWordPayload bs h)⟩, st⟩

/-- Well-formedness of the timestamp pair relative to the integer timestamp
type: present with in-range values exactly for the with-timestamp shape. -/
def TsWellFormed : Nat → Option (Nat × Nat) → Prop
  | tsiType, some (tsi, tsf) => tsiType ≠ 0 ∧ tsi < 2 ^ 32 ∧ tsf < 2 ^ 64
  | tsiType, none => tsiType = 0

instance : ∀ (tsiType : Nat) (o : Option (Nat × Nat)),
    Decidable (TsWellFormed tsiType o)
  | _, some (_, _) => by unfold TsWellFormed; infer_instance
  | _, none => by unfold TsWellFormed; infer_instance

/-- Well-formedness of the payload relative to the header: the shape matches
the packet's classification and stays within the struct's size limits (360
payload words for the with-timestamp shape, 363 without; byte data up to 1436
bytes behind its length prefix). -/
def PayloadWellFormed (h : VitaHeader) : VitaPayload → Prop
  | .words ws =>
      ¬isByteHeader h ∧ (∀ w ∈ ws, w < 2 ^ 32) ∧
        ws.length ≤ (if h.integer_timestamp_type ≠ 0 then 360 else 363)
  | .bytes len data =>
      isByteHeader h ∧ len = data.length ∧ data.length ≤ 1436 ∧
        ∀ b ∈ data, b < 256

instance (h : VitaHeader) : ∀ pl : VitaPayload, Decidable (PayloadWellFormed h pl)
  | .words _ => by unfold PayloadWellFormed; infer_instance
  | .bytes _ _ => by unfold PayloadWellFormed; infer_instance

/-- A legal packet in the sense of the wire format: every bitfield within its
width, the Flex OUI and Smoothlake information class, the timestamp pair
present exactly for the with-timestamp shape, and a payload matching the
packet's classification and within the struct's size limits. -/
def LegalPacket (p : VitaPacket) : Prop :=
  p.header.packet_type < 16 ∧ p.header.reserved < 4 ∧
    p.header.integer_timestamp_type < 4 ∧
    p.header.fractional_timestamp_type < 4 ∧
    p.header.sequence < 16 ∧ p.header.stream_id < 2 ^ 32 ∧
    p.header.oui = FLEX_OUI ∧
    p.header.information_class = SMOOTHLAKE_INFORMATION_CLASS ∧
    p.header.packet_class.padding < 64 ∧
    p.header.packet_class.sample_rate < 32 ∧
    p.header.packet_class.bits_per_sample < 4 ∧
    p.header.packet_class.frames_per_sample < 2 ∧
    TsWellFormed p.header.integer_timestamp_type p.header.ts ∧
    PayloadWellFormed p.header p.payload

instance (p : VitaPacket) : Decidable (LegalPacket p) := by
  unfold LegalPacket; infer_instance

/-! ## Control-plane command emission (`radio.c`)

`waveform_radio_send_api_command_cb_va` prints `C<seq>|<command>\n` with the
radio's current sequence counter, optionally inserts a response-queue entry
under that same sequence, advances the counter with
`sequence = (sequence + 1) & ~(1 << 31)` and returns the advanced counter. -/

/-- The command-sequence state of `struct radio_t` (`calloc`ed to zero by
`waveform_radio_create`). -/
structure RadioState where
  sequence : Nat
deriving DecidableEq, Repr

/-- The observable outcome of one `waveform_radio_send_api_command_cb_va`
call: the emitted line, the sequence number embedded in it, the new radio
state and the returned value. -/
structure SendOutcome where
  line : String
  emittedSeq : Nat
  state : RadioState
  ret : Nat
deriving DecidableEq, Repr

/-- `waveform_radio_send_api_command_cb_va` (immediate form, `at == NULL`). -/
def sendApiCommand (st : RadioState) (cmd : String) : SendOutcome :=
  let line := "C" ++ toString st.sequence ++ "|" ++ cmd ++ "\n"
  let seq' := (st.sequence + 1) &&& 0x7fffffff
  ⟨line, st.sequence, ⟨seq'⟩, seq'⟩

/-- The sequence numbers embedded in `n` consecutive command emissions
starting from state `st`. -/
def emittedSeqs (st : RadioState) : Nat → List Nat
  | 0 => []
  | n + 1 =>
      (sendApiCommand st "").emittedSeq ::
        emittedSeqs (sendApiCommand st "").state n

/-! ## The response queue (`radio.c`)

`complete_response_entry` looks an entry up by sequence, schedules
`rq_call_cb` for it, and unlinks it from the queue exactly when the frame is
a final `R` (`CMD_CB_COMPLETE`) or a `Q` (`CMD_CB_QUEUED`) carrying a
non-zero code; `rq_call_cb` then invokes the completion callback for `R`
frames and the queued callback for `Q` frames, skipping null pointers. -/

/-- `enum cmd_cb_type` -/
inductive CmdCbType where
  | queued
  | complete
deriving DecidableEq, Repr

/-- `struct response_queue_entry`: the sequence it was filed under and
whether the two callback pointers are non-null. -/
structure RespEntry where
  sequence : Nat
  hasCb : Bool
  hasQueuedCb : Bool
deriving DecidableEq, Repr

/-- `complete_response_entry` followed by the scheduled `rq_call_cb`:
returns the queue after the frame is processed and the list of callback
invocations it causes (each tagged with the entry it came from). -/
def completeResponseEntry (queue : List RespEntry) (type : CmdCbType)
    (seq code : Nat) : List RespEntry × List (RespEntry × CmdCbType) :=
  match queue.find? (fun e => e.sequence == seq) with
  | none => (queue, [])
  | some e =>
      let remove : Bool :=
        type == CmdCbType.complete || (type == CmdCbType.queued && code != 0)
      let fired :=
        match type with
        | .complete => if e.hasCb then [(e, CmdCbType.complete)] else []
        | .queued => if e.hasQueuedCb then [(e, CmdCbType.queued)] else []
      (if remove then queue.eraseP (fun x => x.sequence == seq) else queue,
       fired)

/-! ## Radio-originated command dispatch (`radio.c`) -/

/-- A registered command callback (`waveform_cb_list` node on `cmd_cbs`),
identified by the command name it was registered under. -/
structure CmdCbEntry where
  name : String
deriving DecidableEq, Repr

/-- The dispatch-relevant view of a waveform: its active slice (`char
active_slice`, `-1` when inactive) and its command-callback list. -/
structure WaveformCmdView where
  active_slice : Int
  cmd_cbs : List CmdCbEntry
deriving DecidableEq, Repr

/-- `strtoul(s, NULL, 10)` on the token strings the dispatcher sees: the
value of the leading decimal digits, `0` when there are none. -/
def strtoulDec (s : String) : Nat :=
  (s.data.takeWhile Char.isDigit).foldl
    (fun acc c => acc * 10 + (c.toNat - 48)) 0

/-- `process_waveform_command`: tokenized command body `argv`; requires at
least three tokens with `argv[0] == "slice"`, parses the slice number from
`argv[1]`, and schedules every command callback named `argv[2]` on every
waveform whose active slice equals the parsed slice. -/
def processWaveformCommand (wfs : List WaveformCmdView) (seq : Nat)
    (argv : List String) : List (WaveformCmdView × CmdCbEntry × Nat) :=
  if argv.length < 3 ∨ argv.getD 0 "" ≠ "slice" then []
  else
    let slice : Int := strtoulDec (argv.getD 1 "")
    wfs.flatMap fun wf =>
      if wf.active_slice ≠ slice then []
      else
        wf.cmd_cbs.filterMap fun cb =>
          if cb.name = argv.getD 2 "" then some (wf, cb, seq) else none

/-- `%08x`: lowercase hexadecimal, zero padded to eight digits. -/
def hex8 (n : Nat) : String :=
  let s := (Nat.toDigits 16 n).asString
  ⟨List.replicate (8 - s.length) '0'⟩ ++ s

/-- `radio_call_command_cb`, after the user callback has returned `ret`
(a C `int`): the API command emitted in response.  A zero return emits
`waveform response <seq>|0`; a non-zero return emits
`waveform response <seq>|%08x` of `ret + 0x50000000`, which the varargs
`%08x` conversion reads as an unsigned 32-bit value. -/
def radioCallCommandCb (seq : Nat) (ret : Int) : String :=
  if ret ≠ 0 then
    "waveform response " ++ toString seq ++ "|" ++
      hex8 ((ret + 0x50000000).emod (2 ^ 32)).toNat
  else
    "waveform response " ++ toString seq ++ "|0"

/-! ## The slice state machine (`mode_change` in `radio.c`) -/

/-- `enum waveform_state` -/
inductive WaveformState where
  | active
  | inactive
  | pttRequested
  | unkeyRequested
deriving DecidableEq, Repr

/-- The side effects `mode_change` produces for one waveform: state
callbacks scheduled on the work queue, and the data-plane loop being
created (`vita_init`) or torn down (`vita_destroy`). -/
inductive WfEvent where
  | stateCb (s : WaveformState)
  | vitaInitEv
  | vitaDestroyEv
deriving DecidableEq, Repr

/-- The slice-machine view of a waveform: its short name and its active
slice (`char active_slice`, `-1` when inactive). -/
structure WfSliceView where
  short_name : String
  active_slice : Int
deriving DecidableEq, Repr

/-- The body of `mode_change`'s per-waveform loop iteration: first the
deselection conditional (this waveform owns the slice but the new mode is
not its short name), then — on the possibly updated waveform — the
selection conditional (inactive and the new mode is its short name). -/
def modeChangeStep (mode : String) (slice : Int) (wf : WfSliceView) :
    WfSliceView × List WfEvent :=
  let step1 :=
    if wf.active_slice = slice ∧ wf.short_name ≠ mode then
      ({ wf with active_slice := -1 },
       [WfEvent.stateCb .inactive, WfEvent.vitaDestroyEv])
    else (wf, [])
  let wf1 := step1.1
  if wf1.active_slice = -1 ∧ wf1.short_name = mode then
    ({ wf1 with active_slice := slice },
     step1.2 ++ [WfEvent.stateCb .active, WfEvent.vitaInitEv])
  else (wf1, step1.2)

/-- `mode_change` over the radio's waveform list. -/
def modeChange (mode : String) (slice : Int) (wfs : List WfSliceView) :
    List (WfSliceView × List WfEvent) :=
  wfs.map (modeChangeStep mode slice)

/-! ## The meter subsystem (`meters.c`, `utils.c`)

Floating-point values are modelled by `CFloat`: an exact rational for finite
values plus the IEEE-754 specials.  Every multiplication the code performs is
by `1 << radix` with `radix ≤ 8`, which is exact in double precision on the
ranges the units admit, so the rational model is faithful there. -/

/-- An idealized C `float`/`double` value. -/
inductive CFloat where
  | fin (q : ℚ)
  | posInf
  | negInf
  | nan
deriving DecidableEq, Repr

/-- IEEE-754 `<` (any comparison with NaN is false). -/
def CFloat.lt : CFloat → CFloat → Bool
  | .fin a, .fin b => a < b
  | .fin _, .posInf => true
  | .negInf, .fin _ => true
  | .negInf, .posInf => true
  | _, _ => false

/-- IEEE-754 `>` (any comparison with NaN is false). -/
def CFloat.gt (a b : CFloat) : Bool := CFloat.lt b a

/-- `enum waveform_units` -/
inductive WaveformUnits where
  | DB
  | DBM
  | DBFS
  | VOLTS
  | AMPS
  | RPM
  | TEMP_F
  | TEMP_C
  | SWR
  | WATTS
  | PERCENT
  | NONE
deriving DecidableEq, Repr

/-- The `radix` column of the `units` table in `meters.c`. -/
def unitRadix : WaveformUnits → Nat
  | .DB => 7
  | .DBM => 7
  | .DBFS => 7
  | .VOLTS => 8
  | .AMPS => 8
  | .RPM => 0
  | .TEMP_F => 6
  | .TEMP_C => 6
  | .SWR => 7
  | .WATTS => 0
  | .PERCENT => 0
  | .NONE => 0

/-- The `min` column of the `units` table in `meters.c`. -/
def unitMin : WaveformUnits → ℚ
  | .DB => -255
  | .DBM => -255
  | .DBFS => -255
  | .VOLTS => -127
  | .AMPS => -127
  | .RPM => -32768
  | .TEMP_F => -511
  | .TEMP_C => -511
  | .SWR => -255
  | .WATTS => -32768
  | .PERCENT => -32768
  | .NONE => -32768

/-- The `max` column of the `units` table in `meters.c`. -/
def unitMax : WaveformUnits → ℚ
  | .DB => 255
  | .DBM => 255
  | .DBFS => 255
  | .VOLTS => 127
  | .AMPS => 127
  | .RPM => 32767
  | .TEMP_F => 511
  | .TEMP_C => 511
  | .SWR => 255
  | .WATTS => 32767
  | .PERCENT => 32767
  | .NONE => 32767

/-- C `round()`: round to nearest, ties away from zero. -/
def cround (q : ℚ) : ℤ :=
  if q < 0 then -⌊-q + 1 / 2⌋ else ⌊q + 1 / 2⌋

/-- Conversion of an integer to the C `short` it becomes (two's-complement
wrap into `[-2^15, 2^15)`). -/
def toInt16 (z : ℤ) : ℤ := (z + 2 ^ 15) % 2 ^ 16 - 2 ^ 15

/-- `float_to_fixed` (`utils.c`): `(short) round(input * (1u <<
fractional_bits))`.  The conversion of a non-finite double to `short` is
undefined in C; the model maps the non-finite cases to `0`, and no theorem
below depends on that choice. -/
def floatToFixed : CFloat → Nat → ℤ
  | .fin q, bits => toInt16 (cround (q * 2 ^ bits))
  | _, _ => 0

/-- `struct waveform_meter`: the registered unit, the radio-assigned id and
the stored value (`int value`, `-1` while unset). -/
structure Meter where
  name : String
  unit : WaveformUnits
  id : Nat
  value : Int
deriving DecidableEq, Repr

/-- `waveform_meter_set_float_value`: find the first meter with the given
name (`find_meter_by_name`); reject with `-1` when there is none or when
`value > units[unit].max || value < units[unit].min`; otherwise store
`float_to_fixed(value, units[unit].radix)` and return `0`. -/
def setFloatValue : List Meter → String → CFloat → Int × List Meter
  | [], _, _ => (-1, [])
  | m :: rest, name, v =>
      if m.name = name then
        if v.gt (.fin (unitMax m.unit)) || v.lt (.fin (unitMin m.unit)) then
          (-1, m :: rest)
        else
          (0, { m with value := floatToFixed v (unitRadix m.unit) } :: rest)
      else
        let r := setFloatValue rest name v
        (r.1, m :: r.2)

/-- One `{id, value}` slot stored into `packet->meter[i]` by
`waveform_meters_send`, recorded with the array index it is written at.  The
struct field is `uint16_t value`, so the stored `int` is truncated mod
`2^16`. -/
structure MeterSlotWrite where
  index : Nat
  id : Nat
  value : Nat
deriving DecidableEq, Repr

/-- The loop of `waveform_meters_send`: walk the meter list with slot
counter `i`; at each meter first bail out with `-1` if `i >
sizeof(packet->meter)/sizeof(packet->meter[0])` (= 363); otherwise, when the
meter's value is not the unset sentinel `-1`, write slot `i`, reset the
meter to unset and advance `i`.  Returns the result code, the slot writes
performed, the meter list after the call, and the final slot count (stored
into `packet->length`). -/
def metersSendLoop : List Meter → Nat → List MeterSlotWrite →
    Int × List MeterSlotWrite × List Meter × Nat
  | [], i, ws => (0, ws, [], i)
  | m :: rest, i, ws =>
      if i > 363 then (-1, ws, m :: rest, i)
      else if m.value ≠ -1 then
        let w : MeterSlotWrite := ⟨i, m.id, (m.value % 2 ^ 16).toNat⟩
        let r := metersSendLoop rest (i + 1) (ws ++ [w])
        (r.1, r.2.1, { m with value := -1 } :: r.2.2.1, r.2.2.2)
      else
        let r := metersSendLoop rest i ws
        (r.1, r.2.1, m :: r.2.2.1, r.2.2.2)

/-- `waveform_meters_send` on a waveform's meter list. -/
def metersSend (meters : List Meter) :
    Int × List MeterSlotWrite × List Meter × Nat :=
  metersSendLoop meters 0 []

/-! ## Concrete examples used as witnesses and counterexamples -/

/-- A legal audio packet with integer timestamp. -/
def audioExample : VitaPacket :=
  ⟨{ packet_type := 1, class_present := true, trailer_present := false,
     reserved := 0, integer_timestamp_type := 1,
     fractional_timestamp_type := 2, sequence := 5,
     stream_id := 0x04000001, oui := FLEX_OUI,
     information_class := SMOOTHLAKE_INFORMATION_CLASS,
     packet_class := ⟨true, true, 0, SR_24K, BPS_32, FPS_2⟩,
     ts := some (12345, 987654321) },
   .words [0x3f800000, 7, 0]⟩

/-- A legal packet of the without-timestamp shape (the meter-packet shape:
extension data, meter stream id, meter packet class `0x8002`) carrying one
payload word. -/
def sansTsExample : VitaPacket :=
  ⟨{ packet_type := 3, class_present := true, trailer_present := false,
     reserved := 0, integer_timestamp_type := 0,
     fractional_timestamp_type := 0, sequence := 2,
     stream_id := METER_STREAM_ID, oui := FLEX_OUI,
     information_class := SMOOTHLAKE_INFORMATION_CLASS,
     packet_class := PacketClass.ofBits 0x8002,
     ts := none },
   .words [1]⟩

/-- The first receive-path validation of `vita_read_cb`: the OUI field of
the received header equals `FLEX_OUI`. -/
def ouiValid (bs : List Nat) : Prop :=
  (decodeHeader (bs.take 1468)).oui = FLEX_OUI

/-- The second receive-path validation of `vita_read_cb`: the declared
length, in 32-bit words, accounts exactly for the bytes received. -/
def lengthValid (bs : List Nat) : Prop :=
  declaredLength (bs.take 1468) * 4 = (bs.take 1468).length

/-- The third receive-path validation of `vita_read_cb`: the information
class of the received header equals `SMOOTHLAKE_INFORMATION_CLASS`. -/
def classValid (bs : List Nat) : Prop :=
  (decodeHeader (bs.take 1468)).information_class =
    SMOOTHLAKE_INFORMATION_CLASS

instance (bs : List Nat) : Decidable (ouiValid bs) := by
  unfold ouiValid; infer_instance

instance (bs : List Nat) : Decidable (lengthValid bs) := by
  unfold lengthValid; infer_instance

instance (bs : List Nat) : Decidable (classValid bs) := by
  unfold classValid; infer_instance

/-- A waveform's meter list holding one DB meter, unset. -/
def snrMeters : List Meter := [⟨"snr", .DB, 42, -1⟩]

/-- A meter list of 364 meters whose values are all set (`0 ≠ -1`). -/
def overflowMeters : List Meter := List.replicate 364 ⟨"m", .DB, 1, 0⟩

/-! # Theorems -/

/-! ## Word-level helper lemmas -/

theorem length_word32ToBytes (w : Nat) : (word32ToBytes w).length = 4 := rfl

theorem readWord_word32_append (w : Nat) (rest : List Nat) :
    readWord (word32ToBytes w ++ rest) 0 = w % 2 ^ 32 := by
  simp only [readWord, readByte, word32ToBytes, List.cons_append,
    List.nil_append, Nat.mul_zero, Nat.zero_add, List.getD_cons_zero,
    List.getD_cons_succ]
  omega

theorem readWord_cons4 (a b c d : Nat) (l : List Nat) (i : Nat) :
    readWord (a :: b :: c :: d :: l) (i + 1) = readWord l i := by
  have h : ∀ n : Nat, (a :: b :: c :: d :: l).getD (n + 4) 0 = l.getD n 0 :=
    fun _ => rfl
  unfold readWord readByte
  rw [show 4 * (i + 1) = 4 * i + 4 by ring,
    show 4 * i + 4 + 1 = 4 * i + 1 + 4 by ring,
    show 4 * i + 4 + 2 = 4 * i + 2 + 4 by ring,
    show 4 * i + 4 + 3 = 4 * i + 3 + 4 by ring, h, h, h, h]

theorem readWord_flatMap (ws : List Nat) (rest : List Nat) (i : Nat)
    (hi : i < ws.length) :
    readWord (ws.flatMap word32ToBytes ++ rest) i = ws.getD i 0 % 2 ^ 32 := by
  induction ws generalizing i rest with
  | nil => simp at hi
  | cons w ws ih =>
      cases i with
      | zero =>
          rw [List.flatMap_cons, List.append_assoc]
          simpa using readWord_word32_append w _
      | succ i =>
          rw [List.flatMap_cons, List.append_assoc]
          have h4 : word32ToBytes w ++ (ws.flatMap word32ToBytes ++ rest) =
              (w / 2 ^ 24 % 256) :: (w / 2 ^ 16 % 256) :: (w / 2 ^ 8 % 256) ::
                (w % 256) :: (ws.flatMap word32ToBytes ++ rest) := rfl
          rw [h4, readWord_cons4]
          simpa using ih rest i (by simpa using hi)

theorem length_flatMap_word32 (ws : List Nat) :
    (ws.flatMap word32ToBytes).length = 4 * ws.length := by
  induction ws with
  | nil => rfl
  | cons w ws ih => simp [List.flatMap_cons, word32ToBytes, ih]; ring

theorem readByte_append_offset (A l : List Nat) (i : Nat) :
    readByte (A ++ l) (A.length + i) = readByte l i := by
  unfold readByte
  rw [List.getD_append_right _ _ _ _ (Nat.le_add_right _ _),
    Nat.add_sub_cancel_left]

theorem readWord_append_offset (A rest : List Nat) (k i : Nat)
    (h : A.length = 4 * k) :
    readWord (A ++ rest) (k + i) = readWord rest i := by
  unfold readWord
  rw [show 4 * (k + i) = A.length + 4 * i by omega,
    show A.length + 4 * i + 1 = A.length + (4 * i + 1) by omega,
    show A.length + 4 * i + 2 = A.length + (4 * i + 2) by omega,
    show A.length + 4 * i + 3 = A.length + (4 * i + 3) by omega,
    readByte_append_offset, readByte_append_offset, readByte_append_offset,
    readByte_append_offset]

theorem map_range_getD (l : List Nat) :
    (List.range l.length).map (fun i => l.getD i 0) = l := by
  apply List.ext_getElem
  · simp
  · intro i h1 h2
    simp [List.getD_eq_getElem?_getD, List.getElem?_eq_getElem h2]

/-! ## Packet-level helper lemmas -/

theorem toBits_lt (c : PacketClass) : c.toBits < 2 ^ 16 := by
  unfold PacketClass.toBits
  cases c.is_audio <;> cases c.is_float <;> simp only [cond] <;> omega

theorem word0_lt (h : VitaHeader) (L : Nat) : h.word0 L < 2 ^ 32 := by
  unfold VitaHeader.word0
  cases h.class_present <;> cases h.trailer_present <;> simp only [cond] <;>
    omega

theorem ofBits_toBits (c : PacketClass) (h1 : c.padding < 64)
    (h2 : c.sample_rate < 32) (h3 : c.bits_per_sample < 4)
    (h4 : c.frames_per_sample < 2) :
    PacketClass.ofBits c.toBits = c := by
  obtain ⟨a, f, pad, sr, bps, fps⟩ := c
  simp only at h1 h2 h3 h4
  unfold PacketClass.ofBits PacketClass.toBits
  simp only [PacketClass.mk.injEq]
  cases a <;> cases f <;> simp only [cond] <;>
    refine ⟨?_, ?_, ?_, ?_, ?_, ?_⟩ <;>
    (try simp only [decide_eq_true_eq, decide_eq_false_iff_not]) <;> omega

theorem length_toBytes (pl : VitaPayload) :
    pl.toBytes.length = 4 * pl.payloadWords := by
  cases pl with
  | words ws =>
      simp only [VitaPayload.toBytes, VitaPayload.payloadWords]
      exact length_flatMap_word32 ws
  | bytes len data =>
      simp only [VitaPayload.toBytes, VitaPayload.payloadWords,
        List.length_append, List.length_replicate, length_word32ToBytes]
      omega

theorem length_toWords (h : VitaHeader)
    (hts : TsWellFormed h.integer_timestamp_type h.ts) (L : Nat) :
    (h.toWords L).length = h.headerWords := by
  unfold VitaHeader.toWords VitaHeader.headerWords
  cases hts0 : h.ts with
  | none => rw [hts0] at hts; unfold TsWellFormed at hts; simp [hts]
  | some t =>
      obtain ⟨tsi, tsf⟩ := t
      rw [hts0] at hts; unfold TsWellFormed at hts
      simp [hts.1]

theorem length_encodePacket (p : VitaPacket)
    (hts : TsWellFormed p.header.integer_timestamp_type p.header.ts) :
    (encodePacket p).length =
      4 * (p.payload.payloadWords + p.header.headerWords) := by
  unfold encodePacket
  rw [List.length_append, length_flatMap_word32, length_toBytes,
    length_toWords _ hts]
  ring

theorem word0_decode (h : VitaHeader) (L : Nat) (h1 : h.packet_type < 16)
    (h2 : h.reserved < 4) (h3 : h.integer_timestamp_type < 4)
    (h4 : h.fractional_timestamp_type < 4) (h5 : h.sequence < 16)
    (hL : L < 2 ^ 16) :
    h.word0 L / 2 ^ 28 = h.packet_type ∧
      h.word0 L / 2 ^ 27 % 2 = cond h.class_present 1 0 ∧
      h.word0 L / 2 ^ 26 % 2 = cond h.trailer_present 1 0 ∧
      h.word0 L / 2 ^ 24 % 4 = h.reserved ∧
      h.word0 L / 2 ^ 22 % 4 = h.integer_timestamp_type ∧
      h.word0 L / 2 ^ 20 % 4 = h.fractional_timestamp_type ∧
      h.word0 L / 2 ^ 16 % 16 = h.sequence ∧
      h.word0 L % 2 ^ 16 = L := by
  unfold VitaHeader.word0
  cases h.class_present <;> cases h.trailer_present <;> simp only [cond] <;>
    refine ⟨?_, ?_, ?_, ?_, ?_, ?_, ?_, ?_⟩ <;> omega

theorem decodeHeader_toWords (h : VitaHeader) (rest : List Nat) (L : Nat)
    (h1 : h.packet_type < 16) (h2 : h.reserved < 4)
    (h3 : h.integer_timestamp_type < 4)
    (h4 : h.fractional_timestamp_type < 4) (h5 : h.sequence < 16)
    (h6 : h.stream_id < 2 ^ 32) (h7 : h.oui < 2 ^ 32)
    (h8 : h.information_class < 2 ^ 16) (h9 : h.packet_class.padding < 64)
    (h10 : h.packet_class.sample_rate < 32)
    (h11 : h.packet_class.bits_per_sample < 4)
    (h12 : h.packet_class.frames_per_sample < 2)
    (hts : TsWellFormed h.integer_timestamp_type h.ts) (hL : L < 2 ^ 16) :
    decodeHeader ((h.toWords L).flatMap word32ToBytes ++ rest) = h := by
  obtain ⟨e1, e2, e3, e4, e5, e6, e7, e8⟩ :=
    word0_decode h L h1 h2 h3 h4 h5 hL
  have hw3lt : h.information_class % 2 ^ 16 * 2 ^ 16 + h.packet_class.toBits <
      2 ^ 32 := by
    have := toBits_lt h.packet_class
    omega
  have hw3hi : (h.information_class % 2 ^ 16 * 2 ^ 16 +
      h.packet_class.toBits) / 2 ^ 16 = h.information_class := by
    have := toBits_lt h.packet_class
    omega
  have hw3lo : (h.information_class % 2 ^ 16 * 2 ^ 16 +
      h.packet_class.toBits) % 2 ^ 16 = h.packet_class.toBits := by
    have := toBits_lt h.packet_class
    omega
  cases hts0 : h.ts with
  | some t =>
      obtain ⟨tsi, tsf⟩ := t
      rw [hts0] at hts; unfold TsWellFormed at hts
      obtain ⟨htsne, hlt1, hlt2⟩ := hts
      have hW : h.toWords L = [h.word0 L, h.stream_id % 2 ^ 32,
          h.oui % 2 ^ 32,
          h.information_class % 2 ^ 16 * 2 ^ 16 + h.packet_class.toBits,
          tsi % 2 ^ 32, tsf / 2 ^ 32 % 2 ^ 32, tsf % 2 ^ 32] := by
        unfold VitaHeader.toWords; rw [hts0]; rfl
      have r : ∀ i, i < 7 →
          readWord ((h.toWords L).flatMap word32ToBytes ++ rest) i =
            (h.toWords L).getD i 0 % 2 ^ 32 := by
        intro i hi
        exact readWord_flatMap _ _ i (by rw [hW]; simpa using hi)
      have r0 : readWord ((h.toWords L).flatMap word32ToBytes ++ rest) 0 =
          h.word0 L := by
        rw [r 0 (by omega), hW]
        simpa using Nat.mod_eq_of_lt (word0_lt h L)
      have r1 : readWord ((h.toWords L).flatMap word32ToBytes ++ rest) 1 =
          h.stream_id := by
        rw [r 1 (by omega), hW]
        simp only [List.getD_cons_succ, List.getD_cons_zero]
        omega
      have r2 : readWord ((h.toWords L).flatMap word32ToBytes ++ rest) 2 =
          h.oui := by
        rw [r 2 (by omega), hW]
        simp only [List.getD_cons_succ, List.getD_cons_zero]
        omega
      have r3 : readWord ((h.toWords L).flatMap word32ToBytes ++ rest) 3 =
          h.information_class % 2 ^ 16 * 2 ^ 16 + h.packet_class.toBits := by
        rw [r 3 (by omega), hW]
        simp only [List.getD_cons_succ, List.getD_cons_zero]
        omega
      have r4 : readWord ((h.toWords L).flatMap word32ToBytes ++ rest) 4 =
          tsi := by
        rw [r 4 (by omega), hW]
        simp only [List.getD_cons_succ, List.getD_cons_zero]
        omega
      have r5 : readWord ((h.toWords L).flatMap word32ToBytes ++ rest) 5 =
          tsf / 2 ^ 32 := by
        rw [r 5 (by omega), hW]
        simp only [List.getD_cons_succ, List.getD_cons_zero]
        omega
      have r6 : readWord ((h.toWords L).flatMap word32ToBytes ++ rest) 6 =
          tsf % 2 ^ 32 := by
        rw [r 6 (by omega), hW]
        simp only [List.getD_cons_succ, List.getD_cons_zero]
        omega
      unfold decodeHeader
      rw [r0, r1, r2, r3, r4, r5, r6]
      simp only [e1, e2, e3, e4, e5, e6, e7]
      have htsf : tsf / 2 ^ 32 * 2 ^ 32 + tsf % 2 ^ 32 = tsf := by omega
      obtain ⟨pt, cp, tp, rsv, tsiT, tsfT, sq, sid, ouiV, icV, pc, tso⟩ := h
      simp only at htsne hts0 hw3hi hw3lo ⊢
      rw [VitaHeader.mk.injEq]
      refine ⟨rfl, ?_, ?_, rfl, rfl, rfl, rfl, rfl, rfl, hw3hi, ?_, ?_⟩
      · cases cp <;> simp
      · cases tp <;> simp
      · rw [hw3lo]; exact ofBits_toBits pc h9 h10 h11 h12
      · rw [if_pos htsne, hts0, htsf]
  | none =>
      rw [hts0] at hts; unfold TsWellFormed at hts
      have hW : h.toWords L = [h.word0 L, h.stream_id % 2 ^ 32,
          h.oui % 2 ^ 32,
          h.information_class % 2 ^ 16 * 2 ^ 16 + h.packet_class.toBits] := by
        unfold VitaHeader.toWords; rw [hts0]; simp
      have r : ∀ i, i < 4 →
          readWord ((h.toWords L).flatMap word32ToBytes ++ rest) i =
            (h.toWords L).getD i 0 % 2 ^ 32 := by
        intro i hi
        exact readWord_flatMap _ _ i (by rw [hW]; simpa using hi)
      have r0 : readWord ((h.toWords L).flatMap word32ToBytes ++ rest) 0 =
          h.word0 L := by
        rw [r 0 (by omega), hW]
        simpa using Nat.mod_eq_of_lt (word0_lt h L)
      have r1 : readWord ((h.toWords L).flatMap word32ToBytes ++ rest) 1 =
          h.stream_id := by
        rw [r 1 (by omega), hW]
        simp only [List.getD_cons_succ, List.getD_cons_zero]
        omega
      have r2 : readWord ((h.toWords L).flatMap word32ToBytes ++ rest) 2 =
          h.oui := by
        rw [r 2 (by omega), hW]
        simp only [List.getD_cons_succ, List.getD_cons_zero]
        omega
      have r3 : readWord ((h.toWords L).flatMap word32ToBytes ++ rest) 3 =
          h.information_class % 2 ^ 16 * 2 ^ 16 + h.packet_class.toBits := by
        rw [r 3 (by omega), hW]
        simp only [List.getD_cons_succ, List.getD_cons_zero]
        omega
      unfold decodeHeader
      rw [r0, r1, r2, r3]
      simp only [e1, e2, e3, e4, e5, e6, e7]
      obtain ⟨pt, cp, tp, rsv, tsiT, tsfT, sq, sid, ouiV, icV, pc, tso⟩ := h
      simp only at hts hts0 hw3hi hw3lo ⊢
      rw [VitaHeader.mk.injEq]
      refine ⟨rfl, ?_, ?_, rfl, rfl, rfl, rfl, rfl, rfl, hw3hi, ?_, ?_⟩
      · cases cp <;> simp
      · cases tp <;> simp
      · rw [hw3lo]; exact ofBits_toBits pc h9 h10 h11 h12
      · rw [if_neg (by simp [hts]), hts0]

theorem declaredLength_toWords (h : VitaHeader) (rest : List Nat) (L : Nat)
    (h1 : h.packet_type < 16) (h2 : h.reserved < 4)
    (h3 : h.integer_timestamp_type < 4)
    (h4 : h.fractional_timestamp_type < 4) (h5 : h.sequence < 16)
    (hts : TsWellFormed h.integer_timestamp_type h.ts) (hL : L < 2 ^ 16) :
    declaredLength ((h.toWords L).flatMap word32ToBytes ++ rest) = L := by
  obtain ⟨_, _, _, _, _, _, _, e8⟩ := word0_decode h L h1 h2 h3 h4 h5 hL
  have hlen : 0 < (h.toWords L).length := by
    rw [length_toWords _ hts]; unfold VitaHeader.headerWords
    split <;> omega
  have r0 : readWord ((h.toWords L).flatMap word32ToBytes ++ rest) 0 =
      h.word0 L % 2 ^ 32 := by
    have := readWord_flatMap (h.toWords L) rest 0 hlen
    rw [this]
    unfold VitaHeader.toWords
    cases h.ts <;> simp
  unfold declaredLength
  rw [r0, Nat.mod_eq_of_lt (word0_lt h L), e8]

theorem deliveredWordPayload_encodePacket (h : VitaHeader) (ws : List Nat)
    (h1 : h.packet_type < 16) (h2 : h.reserved < 4)
    (h3 : h.integer_timestamp_type < 4)
    (h4 : h.fractional_timestamp_type < 4) (h5 : h.sequence < 16)
    (hts : TsWellFormed h.integer_timestamp_type h.ts)
    (htsne : h.integer_timestamp_type ≠ 0)
    (hwlt : ∀ w ∈ ws, w < 2 ^ 32)
    (hL : ws.length + h.headerWords < 2 ^ 16) :
    deliveredWordPayload (encodePacket ⟨h, .words ws⟩) h = ws := by
  have hhw : h.headerWords = 7 := by
    unfold VitaHeader.headerWords; simp [htsne]
  have hpw : VitaPayload.payloadWords (.words ws) = ws.length := rfl
  have hdecl : declaredLength (encodePacket ⟨h, .words ws⟩) =
      ws.length + h.headerWords := by
    unfold encodePacket
    simp only [hpw]
    exact declaredLength_toWords h _ _ h1 h2 h3 h4 h5 hts hL
  unfold deliveredWordPayload
  rw [hdecl, Nat.add_sub_cancel]
  have hr : ∀ i ∈ List.range ws.length,
      readWord (encodePacket ⟨h, .words ws⟩) (7 + i) = ws.getD i 0 := by
    intro i hi
    rw [List.mem_range] at hi
    unfold encodePacket
    have hA : ((h.toWords (VitaPayload.payloadWords (.words ws) +
        h.headerWords)).flatMap word32ToBytes).length = 4 * 7 := by
      rw [length_flatMap_word32, length_toWords _ hts, hhw]
    rw [readWord_append_offset _ _ 7 i hA]
    have hpb : VitaPayload.toBytes (.words ws) =
        ws.flatMap word32ToBytes ++ [] := by
      simp [VitaPayload.toBytes]
    rw [hpb, readWord_flatMap ws [] i hi]
    have hmem : ws.getD i 0 ∈ ws := by
      rw [List.getD_eq_getElem ws 0 hi]
      exact List.getElem_mem hi
    exact Nat.mod_eq_of_lt (hwlt _ hmem)
  rw [List.map_congr_left hr]
  exact map_range_getD ws

theorem deliveredBytePayload_encodePacket (h : VitaHeader) (data : List Nat)
    (hts : TsWellFormed h.integer_timestamp_type h.ts)
    (htsne : h.integer_timestamp_type ≠ 0)
    (hlen : data.length ≤ 1436) :
    deliveredBytePayload (encodePacket ⟨h, .bytes data.length data⟩) =
      .bytes data.length data := by
  have hhw : h.headerWords = 7 := by
    unfold VitaHeader.headerWords; simp [htsne]
  have hA : ((h.toWords (VitaPayload.payloadWords
      (.bytes data.length data) + h.headerWords)).flatMap
        word32ToBytes).length = 4 * 7 := by
    rw [length_flatMap_word32, length_toWords _ hts, hhw]
  have hpb : VitaPayload.toBytes (.bytes data.length data) =
      word32ToBytes data.length ++
        (data ++ List.replicate
          ((data.length + 3) / 4 * 4 - data.length) 0) := by
    simp [VitaPayload.toBytes]
  have hr7 : readWord (encodePacket ⟨h, .bytes data.length data⟩) 7 =
      data.length := by
    unfold encodePacket
    have h70 : (7 : Nat) = 7 + 0 := rfl
    rw [h70, readWord_append_offset _ _ 7 0 hA, hpb,
      readWord_word32_append]
    omega
  have hrb : ∀ i ∈ List.range data.length,
      readByte (encodePacket ⟨h, .bytes data.length data⟩) (32 + i) =
        data.getD i 0 := by
    intro i hi
    rw [List.mem_range] at hi
    unfold encodePacket
    rw [hpb, ← List.append_assoc]
    have h32 : ((h.toWords (VitaPayload.payloadWords
        (.bytes data.length data) + h.headerWords)).flatMap word32ToBytes ++
          word32ToBytes data.length).length = 32 := by
      rw [List.length_append, hA, length_word32ToBytes]
    rw [List.append_assoc, ← List.append_assoc, show (32 + i) =
      ((h.toWords (VitaPayload.payloadWords (.bytes data.length data) +
        h.headerWords)).flatMap word32ToBytes ++
          word32ToBytes data.length).length + i by rw [h32],
      readByte_append_offset]
    unfold readByte
    rw [List.getD_append _ _ _ _ hi]
  unfold deliveredBytePayload
  rw [hr7]
  simp only [VitaPayload.bytes.injEq, true_and]
  rw [List.map_congr_left hrb]
  exact map_range_getD data

theorem vitaReadCb_encodePacket (hd : VitaHeader) (pl : VitaPayload)
    (hp : LegalPacket ⟨hd, pl⟩) (htsne : hd.integer_timestamp_type ≠ 0) :
    (vitaReadCb VitaStreamState.init (encodePacket ⟨hd, pl⟩)).map
      Delivery.packet = some ⟨hd, pl⟩ := by
  obtain ⟨h1, h2, h3, h4, h5, h6, h7, h8, h9, h10, h11, h12, htsw, hplw⟩ := hp
  simp only at htsw hplw h1 h2 h3 h4 h5 h6 h7 h8 h9 h10 h11 h12
  have hhw : hd.headerWords = 7 := by
    unfold VitaHeader.headerWords; simp [htsne]
  have hpw_le : VitaPayload.payloadWords pl ≤ 360 := by
    cases pl with
    | words ws =>
        obtain ⟨-, -, hle⟩ := hplw
        rw [if_pos htsne] at hle
        simpa [VitaPayload.payloadWords] using hle
    | bytes len data =>
        obtain ⟨-, -, hle, -⟩ := hplw
        simp only [VitaPayload.payloadWords]
        omega
  have hL : VitaPayload.payloadWords pl + hd.headerWords < 2 ^ 16 := by
    rw [hhw]; omega
  have hlen : (encodePacket ⟨hd, pl⟩).length =
      4 * (VitaPayload.payloadWords pl + hd.headerWords) :=
    length_encodePacket _ htsw
  have htake : (encodePacket ⟨hd, pl⟩).take 1468 = encodePacket ⟨hd, pl⟩ := by
    apply List.take_of_length_le
    rw [hlen, hhw]; omega
  have houi : hd.oui < 2 ^ 32 := by rw [h7]; decide
  have hinfo : hd.information_class < 2 ^ 16 := by rw [h8]; decide
  have hdec : decodeHeader (encodePacket ⟨hd, pl⟩) = hd := by
    unfold encodePacket
    exact decodeHeader_toWords hd _ _ h1 h2 h3 h4 h5 h6 houi hinfo h9 h10
      h11 h12 htsw hL
  have hdecl : declaredLength (encodePacket ⟨hd, pl⟩) =
      VitaPayload.payloadWords pl + hd.headerWords := by
    unfold encodePacket
    exact declaredLength_toWords hd _ _ h1 h2 h3 h4 h5 htsw hL
  simp only [vitaReadCb]
  rw [htake, hdec, hdecl]
  rw [if_neg (show ¬hd.oui ≠ FLEX_OUI by simp [h7])]
  rw [if_neg (show ¬(VitaPayload.payloadWords pl + hd.headerWords) * 4 ≠
    (encodePacket ⟨hd, pl⟩).length by rw [hlen]; omega)]
  rw [if_neg (show ¬hd.information_class ≠ SMOOTHLAKE_INFORMATION_CLASS by
    simp [h8])]
  cases pl with
  | words ws =>
      obtain ⟨hnb, hwlt, -⟩ := hplw
      have hdel : deliveredWordPayload (encodePacket ⟨hd, .words ws⟩) hd =
          ws :=
        deliveredWordPayload_encodePacket hd ws h1 h2 h3 h4 h5 htsw htsne
          hwlt (by simpa [VitaPayload.payloadWords] using hL)
      by_cases haud : isAudioHeader hd
      · rw [if_pos haud]
        cases htr : isTransmitStreamId hd.stream_id with
        | true => simp [htr, hdel, VitaStreamState.init]
        | false => simp [htr, hdel, VitaStreamState.init]
      · rw [if_neg haud, if_neg hnb]
        simp [hdel]
  | bytes len data =>
      obtain ⟨hby, hlendat, hle1436, -⟩ := hplw
      subst hlendat
      have hnaud : ¬isAudioHeader hd := by
        intro haud
        have e1 := haud.1
        have e2 := hby.1
        rw [e2] at e1
        exact absurd e1 (by decide)
      rw [if_neg hnaud, if_pos hby]
      have hdel := deliveredBytePayload_encodePacket hd data htsw htsne
        hle1436
      simp [hdel]

/-! ## Claim C1 -/

/-- **C1** (amended): for every legal packet whose integer timestamp type is
present (≠ `INTEGER_TIMESTAMP_NOT_PRESENT`), parsing the byte sequence
produced by encoding the packet delivers a packet equal to it field-wise:
packet type, class/trailer flags, both timestamp types, 4-bit sequence,
length, stream id, OUI, information class, packet class, timestamps and
payload are all recovered unchanged.  (Packets of the without-timestamp
shape are excluded: the receive path always reads the payload at the
with-timestamp offset, so their payload is not recovered — see the
counterexample.) -/
theorem c1_parse_encode_roundtrip (p : VitaPacket) (hp : LegalPacket p)
    (htsne : p.header.integer_timestamp_type ≠ 0) :
    (vitaReadCb VitaStreamState.init (encodePacket p)).map Delivery.packet =
      some p := by
  obtain ⟨hd, pl⟩ := p
  exact vitaReadCb_encodePacket hd pl hp htsne

/-- Witness for C1: the round trip evaluated on a concrete legal audio
packet. -/
theorem c1_parse_encode_roundtrip_witness :
    LegalPacket audioExample ∧
      audioExample.header.integer_timestamp_type ≠ 0 ∧
      (vitaReadCb VitaStreamState.init (encodePacket audioExample)).map
        Delivery.packet = some audioExample :=
  ⟨by decide, by decide,
    c1_parse_encode_roundtrip audioExample (by decide) (by decide)⟩

/-- Counterexample to C1 as stated: a legal packet of the without-timestamp
shape carrying one payload word is *not* recovered by parsing its encoding —
the receive path reads the payload at byte offset 28 (the with-timestamp
offset) while the without-timestamp wire payload starts at byte offset 16,
so the delivered payload is `[0]` instead of `[1]`. -/
theorem c1_sans_ts_counterexample :
    LegalPacket sansTsExample ∧
      (vitaReadCb VitaStreamState.init (encodePacket sansTsExample)).map
        Delivery.packet ≠ some sansTsExample := by
  decide

/-! ## Claim C2 -/

/-- **C2**: the receive-path parser delivers a packet to user callbacks only
if the three validations pass (declared length in words matches the bytes
received, OUI is the Flex OUI, information class is the Smoothlake class);
when any of them fails the packet is dropped — no work item is enqueued for
any callback. -/
theorem c2_reception_validations (st : VitaStreamState) (bs : List Nat) :
    ((vitaReadCb st bs).isSome →
        ouiValid bs ∧ lengthValid bs ∧ classValid bs) ∧
      (¬(ouiValid bs ∧ lengthValid bs ∧ classValid bs) →
        vitaReadCb st bs = none) := by
  have key : ¬(ouiValid bs ∧ lengthValid bs ∧ classValid bs) →
      vitaReadCb st bs = none := by
    intro hc
    unfold ouiValid lengthValid classValid at hc
    simp only [vitaReadCb]
    by_cases a : (decodeHeader (bs.take 1468)).oui = FLEX_OUI
    · rw [if_neg (by simp [a])]
      by_cases b : declaredLength (bs.take 1468) * 4 = (bs.take 1468).length
      · rw [if_neg (by simp [b])]
        rw [if_pos (by tauto)]
      · rw [if_pos b]
    · rw [if_pos a]
  refine ⟨?_, key⟩
  intro hs
  by_contra hc
  rw [key hc] at hs
  simp at hs

/-- Witness for C2: the validation conjunction discharged on a concrete
delivered packet. -/
theorem c2_reception_validations_witness :
    ouiValid (encodePacket audioExample) ∧
      lengthValid (encodePacket audioExample) ∧
      classValid (encodePacket audioExample) :=
  (c2_reception_validations VitaStreamState.init
    (encodePacket audioExample)).1 (by decide)

/-- The sequence numbers embedded by `n` consecutive command emissions are
the `n` consecutive integers modulo `2^31` starting at the initial counter
value. -/
theorem emittedSeqs_eq (n : Nat) : ∀ s, s < 2 ^ 31 →
    emittedSeqs ⟨s⟩ n = (List.range n).map (fun i => (s + i) % 2 ^ 31) := by
  induction n with
  | zero => intro s _; rfl
  | succ n ih =>
      intro s hs
      have hstep : ((s + 1) &&& 0x7fffffff) = (s + 1) % 2 ^ 31 := by
        have hm : (0x7fffffff : Nat) = 2 ^ 31 - 1 := by norm_num
        rw [hm]
        exact Nat.and_pow_two_sub_one_eq_mod _ 31
      have h1 : emittedSeqs ⟨s⟩ (n + 1) =
          s :: emittedSeqs ⟨(s + 1) &&& 0x7fffffff⟩ n := rfl
      rw [h1, hstep, ih ((s + 1) % 2 ^ 31) (Nat.mod_lt _ (by norm_num))]
      rw [List.range_succ_eq_map, List.map_cons, List.map_map]
      congr 1
      · omega
      · apply List.map_congr_left
        intro i _
        show ((s + 1) % 2 ^ 31 + i) % 2 ^ 31 = (s + (i + 1)) % 2 ^ 31
        rw [Nat.mod_add_mod]
        congr 1
        omega

/-! ## Claim C3 -/

/-- **C3**: starting from any counter value below `2^31`, `n` consecutive
command emissions embed the `n` consecutive integers modulo `2^31` starting
at that value, every embedded sequence number has bit 31 clear, and each
emission writes its sequence into a `C<seq>|<command>` line. -/
theorem c3_sequence_monotonicity (s : Nat) (hs : s < 2 ^ 31) (n : Nat) :
    emittedSeqs ⟨s⟩ n = (List.range n).map (fun i => (s + i) % 2 ^ 31) ∧
      (∀ x ∈ emittedSeqs ⟨s⟩ n, x.testBit 31 = false) ∧
      ∀ cmd : String, (sendApiCommand ⟨s⟩ cmd).line =
        "C" ++ toString (sendApiCommand ⟨s⟩ cmd).emittedSeq ++ "|" ++ cmd ++
          "\n" := by
  refine ⟨emittedSeqs_eq n s hs, ?_, fun _ => rfl⟩
  intro x hx
  rw [emittedSeqs_eq n s hs] at hx
  obtain ⟨i, -, hxi⟩ := List.mem_map.mp hx
  apply Nat.testBit_eq_false_of_lt
  omega

/-- Witness for C3: four emissions across the wrap point. -/
theorem c3_sequence_monotonicity_witness :
    0x7ffffffe < 2 ^ 31 ∧
      (emittedSeqs ⟨0x7ffffffe⟩ 4 =
          (List.range 4).map (fun i => (0x7ffffffe + i) % 2 ^ 31) ∧
        (∀ x ∈ emittedSeqs ⟨0x7ffffffe⟩ 4, x.testBit 31 = false) ∧
        ∀ cmd : String, (sendApiCommand ⟨0x7ffffffe⟩ cmd).line =
          "C" ++ toString (sendApiCommand ⟨0x7ffffffe⟩ cmd).emittedSeq ++
            "|" ++ cmd ++ "\n") :=
  ⟨by decide, c3_sequence_monotonicity 0x7ffffffe (by decide) 4⟩

/-! ## Claim C10 -/

/-- **C10**: a command emission embeds the pre-increment counter value in
the `C<seq>|` line, and the value returned to the caller is the advanced
counter — one greater modulo `2^31` than the embedded sequence. -/
theorem c10_return_is_advanced_counter (st : RadioState) (cmd : String) :
    (sendApiCommand st cmd).emittedSeq = st.sequence ∧
      (sendApiCommand st cmd).ret =
        ((sendApiCommand st cmd).emittedSeq + 1) % 2 ^ 31 ∧
      (sendApiCommand st cmd).state.sequence = (sendApiCommand st cmd).ret ∧
      (sendApiCommand st cmd).line =
        "C" ++ toString st.sequence ++ "|" ++ cmd ++ "\n" := by
  refine ⟨rfl, ?_, rfl, rfl⟩
  show (st.sequence + 1) &&& 0x7fffffff = (st.sequence + 1) % 2 ^ 31
  have hm : (0x7fffffff : Nat) = 2 ^ 31 - 1 := by norm_num
  rw [hm]
  exact Nat.and_pow_two_sub_one_eq_mod _ 31

/-! ## Claim C4 -/

/-- In a queue whose prefix holds no entry for sequence `s`, the lookup of
`complete_response_entry` finds the first entry filed under `s`. -/
theorem find_seq_first (q1 q2 : List RespEntry) (e : RespEntry) (s : Nat)
    (hq1 : ∀ x ∈ q1, x.sequence ≠ s) (he : e.sequence = s) :
    (q1 ++ e :: q2).find? (fun x => x.sequence == s) = some e := by
  induction q1 with
  | nil =>
      simp only [List.nil_append]
      rw [List.find?_cons_of_pos _ (by simp [he])]
  | cons a q1 ih =>
      simp only [List.cons_append]
      rw [List.find?_cons_of_neg _ (by simp [hq1 a (by simp)])]
      exact ih fun x hx => hq1 x (by simp [hx])

/-- Unlinking the entry found for sequence `s` removes exactly the first
entry filed under `s`. -/
theorem eraseP_seq_first (q1 q2 : List RespEntry) (e : RespEntry) (s : Nat)
    (hq1 : ∀ x ∈ q1, x.sequence ≠ s) (he : e.sequence = s) :
    (q1 ++ e :: q2).eraseP (fun x => x.sequence == s) = q1 ++ q2 := by
  induction q1 with
  | nil =>
      simp only [List.nil_append]
      rw [List.eraseP_cons_of_pos (by simp [he])]
  | cons a q1 ih =>
      simp only [List.cons_append]
      rw [List.eraseP_cons_of_neg (by simp [hq1 a (by simp)])]
      rw [ih fun x hx => hq1 x (by simp [hx])]

/-- **C4**: for an outstanding sequence `s` whose (unique, per the response
queue invariant) entry carries both callbacks: a final `R` frame removes the
entry and fires the completion callback once; a `Q` frame with code 0 fires
the queued callback and leaves the entry in place; a `Q` frame with a
non-zero code fires the queued callback and removes the entry; hence
`Q<s>|0|…` followed by `R<s>|…` fires the queued callback once and then the
completion callback once, removing the entry exactly once. -/
theorem c4_response_queue (q1 q2 : List RespEntry) (e : RespEntry) (s : Nat)
    (hq1 : ∀ x ∈ q1, x.sequence ≠ s) (he : e.sequence = s)
    (hcb : e.hasCb = true) (hqcb : e.hasQueuedCb = true) :
    (∀ code, completeResponseEntry (q1 ++ e :: q2) .complete s code =
        (q1 ++ q2, [(e, CmdCbType.complete)])) ∧
      completeResponseEntry (q1 ++ e :: q2) .queued s 0 =
        (q1 ++ e :: q2, [(e, CmdCbType.queued)]) ∧
      (∀ code, code ≠ 0 →
        completeResponseEntry (q1 ++ e :: q2) .queued s code =
          (q1 ++ q2, [(e, CmdCbType.queued)])) ∧
      ∀ code,
        (completeResponseEntry
            (completeResponseEntry (q1 ++ e :: q2) .queued s 0).1
            .complete s code).1 = q1 ++ q2 ∧
          (completeResponseEntry (q1 ++ e :: q2) .queued s 0).2 =
            [(e, CmdCbType.queued)] ∧
          (completeResponseEntry
              (completeResponseEntry (q1 ++ e :: q2) .queued s 0).1
              .complete s code).2 = [(e, CmdCbType.complete)] := by
  have hfind := find_seq_first q1 q2 e s hq1 he
  have herase := eraseP_seq_first q1 q2 e s hq1 he
  have hR : ∀ code, completeResponseEntry (q1 ++ e :: q2) .complete s code =
      (q1 ++ q2, [(e, CmdCbType.complete)]) := by
    intro code
    unfold completeResponseEntry
    rw [hfind]
    simp [herase, hcb]
  have hQ0 : completeResponseEntry (q1 ++ e :: q2) .queued s 0 =
      (q1 ++ e :: q2, [(e, CmdCbType.queued)]) := by
    unfold completeResponseEntry
    rw [hfind]
    simp [hqcb]
  have hQn : ∀ code, code ≠ 0 →
      completeResponseEntry (q1 ++ e :: q2) .queued s code =
        (q1 ++ q2, [(e, CmdCbType.queued)]) := by
    intro code hc
    unfold completeResponseEntry
    rw [hfind]
    simp [herase, hqcb, hc]
  exact ⟨hR, hQ0, hQn, fun code =>
    ⟨by rw [hQ0, hR], by rw [hQ0], by rw [hQ0, hR]⟩⟩

/-- Witness for C4: the queue transitions evaluated on a concrete
single-entry queue. -/
theorem c4_response_queue_witness :
    (∀ code, completeResponseEntry [⟨5, true, true⟩] .complete 5 code =
        ([], [(⟨5, true, true⟩, CmdCbType.complete)])) ∧
      completeResponseEntry [⟨5, true, true⟩] .queued 5 0 =
        ([⟨5, true, true⟩], [(⟨5, true, true⟩, CmdCbType.queued)]) ∧
      (∀ code, code ≠ 0 →
        completeResponseEntry [⟨5, true, true⟩] .queued 5 code =
          ([], [(⟨5, true, true⟩, CmdCbType.queued)])) ∧
      ∀ code,
        (completeResponseEntry
            (completeResponseEntry [⟨5, true, true⟩] .queued 5 0).1
            .complete 5 code).1 = [] ∧
          (completeResponseEntry [⟨5, true, true⟩] .queued 5 0).2 =
            [(⟨5, true, true⟩, CmdCbType.queued)] ∧
          (completeResponseEntry
              (completeResponseEntry [⟨5, true, true⟩] .queued 5 0).1
              .complete 5 code).2 =
            [(⟨5, true, true⟩, CmdCbType.complete)] :=
  c4_response_queue [] [] ⟨5, true, true⟩ 5 (by simp) rfl rfl rfl

/-! ## Claim C8 -/

/-- **C8**: a radio-originated `slice <n> <verb> …` command is dispatched
only to command callbacks registered under `<verb>` on waveforms whose
active slice equals `<n>`, and for each dispatched callback the engine
emits `waveform response <seq>|0` when the callback returns 0, and
`waveform response <seq>|<hex(v + 0x50000000)>` when it returns a non-zero
`v` (stated for the positive `int` range, where no 32-bit wrap occurs). -/
theorem c8_command_response (wfs : List WaveformCmdView) (seq : Nat)
    (argv : List String) (wf : WaveformCmdView) (cb : CmdCbEntry)
    (hdisp : (wf, cb, seq) ∈ processWaveformCommand wfs seq argv) :
    (wf.active_slice = (strtoulDec (argv.getD 1 "") : Int) ∧
        cb.name = argv.getD 2 "") ∧
      radioCallCommandCb seq 0 =
        "waveform response " ++ toString seq ++ "|0" ∧
      ∀ v : Int, 0 < v → v < 2 ^ 31 →
        radioCallCommandCb seq v =
          "waveform response " ++ toString seq ++ "|" ++
            hex8 (v + 0x50000000).toNat := by
  refine ⟨?_, by simp [radioCallCommandCb], ?_⟩
  · simp only [processWaveformCommand] at hdisp
    split at hdisp
    · exact absurd hdisp (by simp)
    · obtain ⟨wf', hwf', hmem⟩ := List.mem_flatMap.mp hdisp
      by_cases hsl : wf'.active_slice ≠ (strtoulDec (argv.getD 1 "") : Int)
      · rw [if_pos hsl] at hmem
        simp at hmem
      · rw [if_neg hsl] at hmem
        obtain ⟨cb', hcb', hsome⟩ := List.mem_filterMap.mp hmem
        by_cases hname : cb'.name = argv.getD 2 ""
        · rw [if_pos hname] at hsome
          have heq := Option.some_inj.mp hsome
          have hw : wf' = wf := congrArg Prod.fst heq
          have hc : cb' = cb := congrArg (fun t => t.2.1) heq
          subst hw; subst hc
          push_neg at hsl
          exact ⟨hsl, hname⟩
        · rw [if_neg hname] at hsome
          simp at hsome
  · intro v hv1 hv2
    unfold radioCallCommandCb
    rw [if_pos (by omega)]
    have hmod : (v + 0x50000000).emod (2 ^ 32) = v + 0x50000000 :=
      Int.emod_eq_of_lt (by omega) (by omega)
    rw [hmod]

/-- Witness for C8: the dispatch of `C99|slice 1 set mode=USB` to a `set`
callback on a waveform active on slice 1, with both response emissions. -/
theorem c8_command_response_witness :
    ((⟨1, [⟨"set"⟩]⟩ : WaveformCmdView).active_slice =
        (strtoulDec (["slice", "1", "set", "mode=USB"].getD 1 "") : Int) ∧
      (⟨"set"⟩ : CmdCbEntry).name =
        ["slice", "1", "set", "mode=USB"].getD 2 "") ∧
      radioCallCommandCb 99 0 = "waveform response " ++ toString 99 ++ "|0" ∧
      ∀ v : Int, 0 < v → v < 2 ^ 31 →
        radioCallCommandCb 99 v =
          "waveform response " ++ toString 99 ++ "|" ++
            hex8 (v + 0x50000000).toNat :=
  c8_command_response [⟨1, [⟨"set"⟩]⟩] 99 ["slice", "1", "set", "mode=USB"]
    ⟨1, [⟨"set"⟩]⟩ ⟨"set"⟩ (by
      have hc : processWaveformCommand [⟨1, [⟨"set"⟩]⟩] 99
          ["slice", "1", "set", "mode=USB"] =
          [(⟨1, [⟨"set"⟩]⟩, ⟨"set"⟩, 99)] := by decide
      rw [hc]
      exact List.mem_singleton.mpr rfl)

/-! ## Claim C9 -/

/-- **C9**: a `slice <n> mode=<m>` status message activates a waveform
(fires `ACTIVE` state callbacks, sets the active slice to `n` and starts the
data-plane loop) only from the inactive state; a waveform already active on
a different slice is left untouched by the message, so each waveform holds
at most one active slice (its single `active_slice` field). -/
theorem c9_slice_activation (mode : String) (slice : Int)
    (wf : WfSliceView) (wfs : List WfSliceView) :
    (wf.active_slice = -1 ∧ wf.short_name = mode →
        modeChangeStep mode slice wf = ({ wf with active_slice := slice },
          [WfEvent.stateCb .active, WfEvent.vitaInitEv])) ∧
      (wf.active_slice ≠ -1 ∧ wf.active_slice ≠ slice →
        modeChangeStep mode slice wf = (wf, [])) ∧
      (wf.active_slice ≠ -1 →
        WfEvent.stateCb .active ∉ (modeChangeStep mode slice wf).2 ∧
          WfEvent.vitaInitEv ∉ (modeChangeStep mode slice wf).2) ∧
      modeChange mode slice wfs = wfs.map (modeChangeStep mode slice) := by
  refine ⟨?_, ?_, ?_, rfl⟩
  · rintro ⟨hi, hm⟩
    have hnc1 : ¬(wf.active_slice = slice ∧ wf.short_name ≠ mode) := by
      rintro ⟨-, h2⟩; exact h2 hm
    simp [modeChangeStep, hnc1, hi, hm]
  · rintro ⟨ha, hs⟩
    have hnc1 : ¬(wf.active_slice = slice ∧ wf.short_name ≠ mode) := by
      rintro ⟨h1, -⟩; exact hs h1
    have hnc2 : ¬(wf.active_slice = -1 ∧ wf.short_name = mode) := by
      rintro ⟨h1, -⟩; exact ha h1
    simp [modeChangeStep, hnc1, hnc2]
  · intro ha
    by_cases hd : wf.active_slice = slice ∧ wf.short_name ≠ mode
    · have hnm : ¬wf.short_name = mode := hd.2
      simp [modeChangeStep, hd, hnm]
    · have hnc2 : ¬(wf.active_slice = -1 ∧ wf.short_name = mode) := by
        rintro ⟨h1, -⟩; exact ha h1
      simp [modeChangeStep, hd, hnc2]

/-- Witness for C9: activation of an inactive waveform whose short name
matches, evaluated concretely. -/
theorem c9_slice_activation_witness :
    (⟨"JUNK", -1⟩ : WfSliceView).active_slice = -1 ∧
      (⟨"JUNK", -1⟩ : WfSliceView).short_name = "JUNK" ∧
      modeChangeStep "JUNK" 1 ⟨"JUNK", -1⟩ = (⟨"JUNK", 1⟩,
        [WfEvent.stateCb .active, WfEvent.vitaInitEv]) :=
  ⟨rfl, rfl,
    (c9_slice_activation "JUNK" 1 ⟨"JUNK", -1⟩ []).1 ⟨rfl, rfl⟩⟩

/-! ## Claim C5 -/

/-- `waveform_meter_set_float_value` walks past the meters whose names do
not match and acts on the remainder of the list. -/
theorem setFloatValue_append (l1 rest : List Meter) (name : String)
    (v : CFloat) (h : ∀ x ∈ l1, x.name ≠ name) :
    setFloatValue (l1 ++ rest) name v =
      ((setFloatValue rest name v).1, l1 ++ (setFloatValue rest name v).2) := by
  induction l1 with
  | nil => simp
  | cons a l1 ih =>
      simp only [List.cons_append, setFloatValue, List.append_eq]
      rw [if_neg (h a (by simp))]
      rw [ih fun x hx => h x (by simp [hx])]

/-- **C5**: for the first meter registered under `name` (with unit `u`):
setting a float value `v` with `min(u) ≤ v ≤ max(u)` stores
`round(v * 2^radix(u))` truncated to a signed 16-bit integer and returns 0;
setting a value outside `[min(u), max(u)]` returns `-1` and leaves every
meter unchanged.  The radix table is the claimed one: 7 for DB, DBM, DBFS,
SWR; 8 for VOLTS, AMPS; 6 for TEMP_F, TEMP_C; 0 for RPM, WATTS, PERCENT,
NONE. -/
theorem c5_meter_radix (l1 l2 : List Meter) (m : Meter) (name : String)
    (q : ℚ) (hl1 : ∀ x ∈ l1, x.name ≠ name) (hm : m.name = name) :
    ((unitMin m.unit ≤ q ∧ q ≤ unitMax m.unit →
        setFloatValue (l1 ++ m :: l2) name (.fin q) =
          (0, l1 ++ { m with
            value := toInt16 (cround (q * 2 ^ unitRadix m.unit)) } :: l2)) ∧
      (q < unitMin m.unit ∨ unitMax m.unit < q →
        setFloatValue (l1 ++ m :: l2) name (.fin q) =
          (-1, l1 ++ m :: l2))) ∧
      (unitRadix .DB = 7 ∧ unitRadix .DBM = 7 ∧ unitRadix .DBFS = 7 ∧
        unitRadix .SWR = 7 ∧ unitRadix .VOLTS = 8 ∧ unitRadix .AMPS = 8 ∧
        unitRadix .TEMP_F = 6 ∧ unitRadix .TEMP_C = 6 ∧ unitRadix .RPM = 0 ∧
        unitRadix .WATTS = 0 ∧ unitRadix .PERCENT = 0 ∧
        unitRadix .NONE = 0) := by
  refine ⟨⟨?_, ?_⟩, by decide⟩
  · rintro ⟨hmin, hmax⟩
    rw [setFloatValue_append l1 _ name _ hl1]
    have hhead : setFloatValue (m :: l2) name (.fin q) =
        (0, { m with
          value := toInt16 (cround (q * 2 ^ unitRadix m.unit)) } :: l2) := by
      simp only [setFloatValue]
      rw [if_pos hm, if_neg ?_]
      · rfl
      · simp only [CFloat.gt, CFloat.lt, Bool.or_eq_true, decide_eq_true_eq]
        rintro (hc | hc)
        · exact absurd hc (not_lt.mpr hmax)
        · exact absurd hc (not_lt.mpr hmin)
    rw [hhead]
  · intro hr
    rw [setFloatValue_append l1 _ name _ hl1]
    have hhead : setFloatValue (m :: l2) name (.fin q) = (-1, m :: l2) := by
      simp only [setFloatValue]
      rw [if_pos hm, if_pos ?_]
      simp only [CFloat.gt, CFloat.lt, Bool.or_eq_true, decide_eq_true_eq]
      tauto
    rw [hhead]

/-- Witness for C5: `-12.5` on a DB meter (radix 7) stores
`round(-12.5 * 128) = -1600`. -/
theorem c5_meter_radix_witness :
    unitMin WaveformUnits.DB ≤ (-25 / 2 : ℚ) ∧
      (-25 / 2 : ℚ) ≤ unitMax WaveformUnits.DB ∧
      setFloatValue snrMeters "snr" (.fin (-25 / 2)) =
        (0, [⟨"snr", WaveformUnits.DB, 42,
          toInt16 (cround ((-25 / 2) * 2 ^ unitRadix WaveformUnits.DB))⟩]) ∧
      toInt16 (cround ((-25 / 2 : ℚ) * 2 ^ unitRadix WaveformUnits.DB)) =
        -1600 :=
  ⟨by norm_num [unitMin], by norm_num [unitMax],
    (c5_meter_radix [] [] ⟨"snr", .DB, 42, -1⟩ "snr" (-25 / 2) (by simp)
      rfl).1.1 ⟨by norm_num [unitMin], by norm_num [unitMax]⟩,
    by norm_num [toInt16, cround, unitRadix]⟩

/-! ## Claim C6 -/

/-- Counterexample to C6 as stated: setting a meter to NaN does *not*
return an error — both range comparisons
(`value > max || value < min`) are false for NaN, so
`waveform_meter_set_float_value` returns 0 and stores a value (the meter
list changes). -/
theorem c6_nan_not_rejected :
    (setFloatValue snrMeters "snr" CFloat.nan).1 = 0 ∧
      (setFloatValue snrMeters "snr" CFloat.nan).2 ≠ snrMeters := by
  decide

/-- **C6** (amended): setting `+Inf`, `-Inf`, or a finite value below the
unit's min or above the unit's max returns an error and leaves every meter
unchanged (so no such value reaches a meter packet); NaN, however, passes
the range check and is stored. -/
theorem c6_nonfinite_or_out_of_range_rejected (l1 l2 : List Meter)
    (m : Meter) (name : String) (v : CFloat)
    (hl1 : ∀ x ∈ l1, x.name ≠ name) (hm : m.name = name)
    (hv : v = CFloat.posInf ∨ v = CFloat.negInf ∨
      ∃ q, v = CFloat.fin q ∧
        (q < unitMin m.unit ∨ unitMax m.unit < q)) :
    setFloatValue (l1 ++ m :: l2) name v = (-1, l1 ++ m :: l2) := by
  rw [setFloatValue_append l1 _ name _ hl1]
  have hhead : setFloatValue (m :: l2) name v = (-1, m :: l2) := by
    simp only [setFloatValue]
    rw [if_pos hm, if_pos ?_]
    rcases hv with hv | hv | ⟨q, hv, hr⟩ <;> subst hv
    · rfl
    · rfl
    · simp only [CFloat.gt, CFloat.lt, Bool.or_eq_true, decide_eq_true_eq]
      tauto
  rw [hhead]

/-- Witness for C6 (amended): `+Inf` rejected on a concrete meter list. -/
theorem c6_nonfinite_rejected_witness :
    setFloatValue snrMeters "snr" CFloat.posInf = (-1, snrMeters) :=
  c6_nonfinite_or_out_of_range_rejected [] [] ⟨"snr", .DB, 42, -1⟩ "snr"
    CFloat.posInf (by simp) rfl (Or.inl rfl)

/-! ## Claim C7 -/

set_option maxRecDepth 4000 in
/-- **C7** is violated by the code (the guard uses `>` where the 363-entry
`meter` array bound requires `>=`): on a waveform with 364 set meters,
`waveform_meters_send` returns success (0) — not an error — after writing
364 slots, including one at index 363, one past the last valid index of
the 363-entry array. -/
theorem c7_meters_send_overflow :
    (metersSend overflowMeters).1 = 0 ∧
      (metersSend overflowMeters).2.1.length = 364 ∧
      363 ∈ (metersSend overflowMeters).2.1.map MeterSlotWrite.index := by
  decide

end WaveformSdk
